import Mathlib

/-!
Verification of the CRISPRCraft gRNA-scanning engine (`src/app.py`).

The engine is embedded shallowly:
* a DNA sequence / PAM string is a `List Char`;
* Python's `re` pattern `f'([ATCG]{20})({pam_regex})'` (with
  `pam_regex = pam.replace('N', '.')`) is modelled by compiling the
  replaced PAM into its regex meaning inside group 2.  Since the
  whole PAM is parenthesised, a `'|'` in it is an alternation scoped
  to the group: the PAM splits on `'|'` into an ordered list of
  alternatives (`splitBar`), each a list of single-character
  matchers (`PamTok`): `'.'` matches any character other than a
  newline, any other non-metacharacter — including a lone `']'`,
  which `re` treats as a literal — matches itself.  At a position
  the group matches the first alternative that matches there
  (ordered alternation; nothing follows group 2, so no backtracking
  revisits the choice), and the match consumes that alternative's
  width — possibly zero for an empty alternative, as in the PAM
  `"|"` whose group `(|)` matches the empty string.
  A remaining metacharacter (such as `'('`) takes the pattern
  outside this fixed-width fragment; compilation to `none` models
  what `re` then does on the inputs considered below (a lone `'('`
  makes the pattern malformed and `re.finditer` raises `re.error`).
  PAMs that combine such metacharacters into other syntactically
  valid regex constructs (quantifiers, anchors, groups, escapes —
  variable-width or zero-width syntax) fall outside the modelled
  domain and are conservatively mapped to `none` as well; no theorem
  below concerns such a PAM.
* `re.finditer` returns successive non-overlapping leftmost matches:
  the scan tries offsets left to right and, after a match of length
  `20 + (width of the matched PAM alternative)`, resumes immediately
  after it.  `scanFromFuel` implements exactly that loop (fuel makes
  the recursion structural; `scanFrom` supplies enough fuel to reach
  the end of the sequence).
* `Bio.SeqUtils.gc_fraction` is modelled on its argument domain in
  this program — strings over the unambiguous alphabet A/T/C/G (the
  scanner's group 1 is `[ATCG]{20}`) — where it returns
  `(#G + #C) / length`.
* every number the engine reports is a float produced by
  `round(x, 2)` from an exact nonnegative rational `x`; such a value
  is an exact multiple of `1/100` and is represented losslessly by
  its value in hundredths, a `Nat` (`roundCenti`).  All rationals
  rounded in this program have the form `5k` or `2a + 4b` with no
  ties at the second decimal, so Python's banker's rounding, the
  mathematical half-up `round`, and `roundCenti` agree, and the
  tiny binary-float error of the Python expression is absorbed by
  the rounding.  The spec-side `round2` below states the same
  rounding over `ℚ` for comparison theorems.
* a raised exception is `none`; a normal return is `some`.
-/

namespace CRISPRCraft

/-- The four nucleotide symbols accepted by the scanner's protospacer
class `[ATCG]`. -/
def isNuc (c : Char) : Bool :=
  c == 'A' || c == 'T' || c == 'C' || c == 'G'

/-- One compiled position of the PAM part of the pattern:
`dot` is the regex wildcard `.`, `lit a` a literal character. -/
inductive PamTok where
  | dot : PamTok
  | lit : Char → PamTok
  deriving DecidableEq

/-- Characters with special meaning in Python regular expressions that
the model does not assign a matcher to.  Substituted unescaped into the
pattern they do not act as single-character literals; for the inputs
considered below (a lone `'('`) the resulting pattern is malformed and
`re` raises `re.error`.  (`'|'` is handled as alternation by `splitBar`
and `']'` is a literal, so neither appears here.) -/
def regexMeta : List Char :=
  ['(', ')', '[', '\x7b', '\x7d', '*', '+', '?', '^', '$', '\\']

/-- Compile one character of `pam.replace('N', '.')`:
`'.'` becomes the wildcard, a metacharacter fails (models `re.error`),
anything else is a literal. -/
def compileTok (c : Char) : Option PamTok :=
  if c == '.' then some PamTok.dot
  else if regexMeta.contains c then none
  else some (PamTok.lit c)

/-- Compile one alternation-free alternative of the replaced PAM,
failing if any character fails. -/
def compileToks : List Char → Option (List PamTok)
  | [] => some []
  | c :: cs =>
    match compileTok c, compileToks cs with
    | some t, some ts => some (t :: ts)
    | _, _ => none

/-- Split the replaced PAM on `'|'` into its ordered regex
alternatives (never empty: the PAM `""` has the single empty
alternative, `"|"` has two empty alternatives). -/
def splitBar : List Char → List (List Char)
  | [] => [[]]
  | c :: cs =>
    if c == '|' then [] :: splitBar cs
    else
      match splitBar cs with
      | [] => [[c]]
      | a :: as => (c :: a) :: as

/-- Compile every alternative, failing if any fails. -/
def compileAlts : List (List Char) → Option (List (List PamTok))
  | [] => some []
  | p :: ps =>
    match compileToks p, compileAlts ps with
    | some t, some ts => some (t :: ts)
    | _, _ => none

/-- Model of `pam.replace('N', '.')` from `extract_gRNAs` (src/app.py:114). -/
def pamReplaceN (pam : List Char) : List Char :=
  pam.map (fun c => if c == 'N' then '.' else c)

/-- Compile the group-2 regex built from the PAM (src/app.py:114,116):
replace `N` by the wildcard, split on `'|'` into alternatives, compile
each; `none` models `re.error`. -/
def compilePam (pam : List Char) : Option (List (List PamTok)) :=
  compileAlts (splitBar (pamReplaceN pam))

/-- One compiled PAM position applied to one character.  The regex
wildcard `.` matches any character except a newline. -/
def tokMatches : PamTok → Char → Bool
  | PamTok.dot, c => c != '\n'
  | PamTok.lit a, c => c == a

/-- One compiled alternative applied to a prefix of the remaining
text (false when fewer characters remain than the alternative
needs). -/
def toksMatch : List PamTok → List Char → Bool
  | [], _ => true
  | _ :: _, [] => false
  | t :: ts, c :: cs => tokMatches t c && toksMatch ts cs

/-- Ordered regex alternation: the first alternative matching a
prefix of the remaining text, if any.  Nothing follows group 2 in
the pattern, so the regex engine never backtracks into this
choice. -/
def firstAlt : List (List PamTok) → List Char → Option (List PamTok)
  | [], _ => none
  | alt :: more, rest =>
    if toksMatch alt rest then some alt else firstAlt more rest

/-- The pattern `([ATCG]{20})(pam_regex)` matches `S` at offset `i`:
the next 20 characters are nucleotides and some PAM alternative
matches immediately after them.  Group 1 and each alternative are of
fixed width, so this predicate is exact. -/
def matchesAt (S : List Char) (alts : List (List PamTok)) (i : Nat) : Bool :=
  decide (i + 20 ≤ S.length)
    && ((S.drop i).take 20).all isNuc
    && (firstAlt alts (S.drop (i + 20))).isSome

/-- A raw scanner match: group 1 (the protospacer) and its offset. -/
structure Candidate where
  start : Nat
  gRNA : List Char
  deriving DecidableEq

/-- The `re.finditer` loop: try offsets left to right; after a match
(of total width `20` plus the width of the matched alternative)
resume right after it, otherwise advance by one.  `fuel` only bounds
the recursion depth. -/
def scanFromFuel (S : List Char) (alts : List (List PamTok)) :
    Nat → Nat → List Candidate
  | 0, _ => []
  | f + 1, i =>
    if i + 20 ≤ S.length then
      if ((S.drop i).take 20).all isNuc then
        match firstAlt alts (S.drop (i + 20)) with
        | some alt =>
          ⟨i, (S.drop i).take 20⟩ :: scanFromFuel S alts f (i + 20 + alt.length)
        | none => scanFromFuel S alts f (i + 1)
      else
        scanFromFuel S alts f (i + 1)
    else
      []

/-- All `re.finditer` matches of `([ATCG]{20})(pam_regex)` in `S`
from offset `i` on: `S.length + 1 - i` units of fuel always suffice,
since every step either advances the offset or stops. -/
def scanFrom (S : List Char) (alts : List (List PamTok)) (i : Nat) : List Candidate :=
  scanFromFuel S alts (S.length + 1 - i) i

/-- Model of `len(re.findall(f'(?={pat})', S))` for a literal `pat`
(src/app.py:108): the lookahead is zero-width, so `findall` counts
every offset `0 ≤ i ≤ len(S)` at which `pat` occurs — overlapping
occurrences included. -/
def countOccurrences (S pat : List Char) : Nat :=
  (List.range (S.length + 1)).countP (fun i => (S.drop i).take pat.length == pat)

/-- The off-target field of a result row: either the integer count or
the categorical label `"Low"`. -/
inductive OffTarget where
  | count : Int → OffTarget
  | low : OffTarget
  deriving DecidableEq

/-- Model of `count_off_targets` (src/app.py:106-109): count overlapping
occurrences of `gRNA[:-2]` — the protospacer with its last two bases
dropped — in the sequence, subtract 1, and report `"Low"` unless the
result is positive. -/
def count_off_targets (S g : List Char) : OffTarget :=
  let c : Int := (countOccurrences S (g.take (g.length - 2)) : Int) - 1
  if c > 0 then OffTarget.count c else OffTarget.low

/-- Value of `round(num / den, 2)` of a nonnegative rational, represented in
hundredths: the integer nearest to `100 * num / den`
(`⌊(100 * num / den) + 1/2⌋ = (200 * num + den) / (2 * den)`). -/
def roundCenti (num den : Nat) : Nat :=
  (num * 200 + den) / (2 * den)

/-- The spec-side statement of Python's `round(q, 2)` over exact
rationals, used to compare the engine's hundredths values with the
spec's formulas. -/
def round2 (q : ℚ) : ℚ :=
  ((round (q * 100) : ℤ) : ℚ) / 100

/-- Model of `calculate_gc_content` (src/app.py:102-104):
`round(gc_fraction(sequence) * 100, 2)`, in hundredths of a percent.
`gc_fraction g * 100 = (#G + #C) * 100 / length`. -/
def calculate_gc_content (g : List Char) : Nat :=
  roundCenti (g.countP (fun c => c == 'G' || c == 'C') * 100) g.length

/-- One row appended by `extract_gRNAs` (src/app.py:121), together
with the match offset the row was produced at.  `gcContent` is the
reported GC percentage in hundredths. -/
structure Annotated where
  start : Nat
  gRNA : List Char
  gcContent : Nat
  offTarget : OffTarget
  deriving DecidableEq

/-- Annotate one scanner match (the loop body, src/app.py:117-121). -/
def annotate (S : List Char) (c : Candidate) : Annotated :=
  ⟨c.start, c.gRNA, calculate_gc_content c.gRNA, count_off_targets S c.gRNA⟩

/-- Model of `extract_gRNAs` (src/app.py:111-123): compile the PAM (a failure
models the `re.error` exception), run the `finditer` loop annotating
each match, and return the first 50 rows. -/
def extract_gRNAs (S pam : List Char) : Option (List Annotated) :=
  match compilePam pam with
  | none => none
  | some alts => some (((scanFrom S alts 0).map (annotate S)).take 50)

/-- Modelled from the spec: the melting-temperature metric of the
Metric Annotator (spec §4.4) is present only in the second,
near-duplicate revision of `app.py`, which is not under `src/`; the
revision under `src/` computes no melting temperature.  Per the spec,
the Wallace rule `Tm = 2*(A_count + T_count) + 4*(G_count + C_count)`
over the protospacer, rounded to 2 decimal places; in hundredths of
a degree here. -/
def melting_temp (g : List Char) : Nat :=
  roundCenti
    (2 * (g.countP (fun c => c == 'A') + g.countP (fun c => c == 'T'))
      + 4 * (g.countP (fun c => c == 'G') + g.countP (fun c => c == 'C')))
    1

/-- The PAM preset `"NGG"` offered by the interface. -/
def pamNGG : List Char := ['N', 'G', 'G']

/-- The PAM `"NGG"` compiled as one alternative: wildcard, then
literal G, G. -/
def toksNGG : List PamTok := [PamTok.dot, PamTok.lit 'G', PamTok.lit 'G']

/-- The PAM `"NGG"` fully compiled: a single alternative. -/
def altsNGG : List (List PamTok) := [toksNGG]

/-- Sequence of 21 `A`s then `GG`: one protospacer at offset 0 with PAM `AGG`. -/
def seqA20AGG : List Char := List.replicate 20 'A' ++ ['A', 'G', 'G']

/-- The single result row of `extract_gRNAs seqA20AGG "NGG"`. -/
def rowA20AGG : Annotated := ⟨0, List.replicate 20 'A', 0, OffTarget.count 3⟩

/-- Sequence of 21 `A`s then `GGG`: valid protospacer+PAM matches at offsets 0 and 1. -/
def seqA21GGG : List Char := List.replicate 21 'A' ++ ['G', 'G', 'G']

/-- A sequence whose unique protospacer `A^18 CC` occurs exactly once as a
20-mer, while its 18-base prefix `A^18` occurs twice. -/
def seqC1 : List Char :=
  List.replicate 18 'A' ++ ['C', 'C', 'T', 'G', 'G'] ++ List.replicate 18 'A'

/-- Two adjacent non-overlapping protospacer+PAM sites. -/
def seqTwo : List Char := seqA20AGG ++ seqA20AGG

/-- The two result rows of `extract_gRNAs seqTwo "NGG"`. -/
def rowsTwo : List Annotated :=
  [⟨0, List.replicate 20 'A', 0, OffTarget.count 7⟩,
   ⟨23, List.replicate 20 'A', 0, OffTarget.count 7⟩]

/-- The sequence `seqA20AGG` preceded by the non-nucleotide character `X`. -/
def seqXhead : List Char := 'X' :: seqA20AGG

/-- The single result row of `extract_gRNAs seqXhead "NGG"`. -/
def rowXhead : Annotated := ⟨1, List.replicate 20 'A', 0, OffTarget.count 3⟩

/-- Sequence of 20 `A`s followed by the literal text `XYZ`. -/
def seqXYZ : List Char := List.replicate 20 'A' ++ ['X', 'Y', 'Z']

/-- The PAM string `"XYZ"`: not over {A,T,C,G,N}. -/
def pamXYZ : List Char := ['X', 'Y', 'Z']

/-- The single result row of `extract_gRNAs seqXYZ "XYZ"`. -/
def rowXYZ : Annotated := ⟨0, List.replicate 20 'A', 0, OffTarget.count 2⟩

/-- The PAM string `"("`: an unescaped regex metacharacter. -/
def pamParen : List Char := ['(']

/-- A protospacer with ten G and ten A bases. -/
def gHalf : List Char := List.replicate 10 'G' ++ List.replicate 10 'A'

/-! ### Basic lemmas about the embedding -/

theorem compileToks_length : ∀ {cs : List Char} {toks : List PamTok},
    compileToks cs = some toks → toks.length = cs.length := by
  intro cs
  induction cs with
  | nil =>
    intro toks h
    simp only [compileToks, Option.some.injEq] at h
    subst h; rfl
  | cons c cs ih =>
    intro toks h
    simp only [compileToks] at h
    cases hc : compileTok c with
    | none => rw [hc] at h; cases h
    | some t =>
      cases hcs : compileToks cs with
      | none => rw [hc, hcs] at h; cases h
      | some ts =>
        rw [hc, hcs] at h
        injection h with h
        subst h
        simp [ih hcs]

theorem compileToks_isSome {cs : List Char}
    (h : ∀ c ∈ cs, (compileTok c).isSome = true) :
    (compileToks cs).isSome = true := by
  induction cs with
  | nil => rfl
  | cons c cs ih =>
    have hc := h c (List.mem_cons_self c cs)
    have hcs := ih (fun x hx => h x (List.mem_cons_of_mem c hx))
    simp only [compileToks]
    cases hcc : compileTok c with
    | none => rw [hcc] at hc; cases hc
    | some t =>
      cases hccs : compileToks cs with
      | none => rw [hccs] at hcs; cases hcs
      | some ts => simp

theorem compileTok_isSome_of_not_meta {c : Char}
    (h : regexMeta.contains c = false) :
    (compileTok c).isSome = true := by
  by_cases hdot : (c == '.') = true
  · simp [compileTok, hdot]
  · simp only [compileTok, hdot, h]
    simp only [Bool.false_eq_true, if_false]
    rfl

theorem compileTok_pamReplaceN_isSome {pam : List Char}
    (h : ∀ c ∈ pam, regexMeta.contains c = false) :
    ∀ c ∈ pamReplaceN pam, (compileTok c).isSome = true := by
  intro c hc
  rcases List.mem_map.mp hc with ⟨c0, hc0, rfl⟩
  by_cases hN : (c0 == 'N') = true
  · simp only [hN, if_pos]
    exact compileTok_isSome_of_not_meta (by decide)
  · simp only [hN]
    rw [if_neg (by simp [hN])]
    exact compileTok_isSome_of_not_meta (h c0 hc0)

theorem compileToks_pamReplaceN_isSome {pam : List Char}
    (h : ∀ c ∈ pam, regexMeta.contains c = false) :
    (compileToks (pamReplaceN pam)).isSome = true :=
  compileToks_isSome (compileTok_pamReplaceN_isSome h)

theorem noMeta_of_ATCGN {c : Char}
    (h : (c == 'A' || c == 'T' || c == 'C' || c == 'G' || c == 'N') = true) :
    regexMeta.contains c = false := by
  simp only [Bool.or_eq_true, beq_iff_eq] at h
  rcases h with ((((rfl | rfl) | rfl) | rfl) | rfl) <;> decide

theorem toksMatch_length : ∀ {ts : List PamTok} {cs : List Char},
    toksMatch ts cs = true → ts.length ≤ cs.length := by
  intro ts
  induction ts with
  | nil => intro cs h; simp
  | cons t ts ih =>
    intro cs h
    cases cs with
    | nil => simp [toksMatch] at h
    | cons c cs =>
      rw [toksMatch, Bool.and_eq_true] at h
      have := ih h.2
      simp only [List.length_cons]
      omega

theorem firstAlt_mem : ∀ {alts : List (List PamTok)} {rest : List Char}
    {alt : List PamTok}, firstAlt alts rest = some alt → alt ∈ alts := by
  intro alts
  induction alts with
  | nil => intro rest alt h; simp [firstAlt] at h
  | cons a as ih =>
    intro rest alt h
    rw [firstAlt] at h
    by_cases ht : toksMatch a rest = true
    · rw [if_pos ht] at h
      injection h with h
      subst h
      exact List.mem_cons_self _ _
    · rw [if_neg ht] at h
      exact List.mem_cons_of_mem _ (ih h)

theorem firstAlt_match : ∀ {alts : List (List PamTok)} {rest : List Char}
    {alt : List PamTok}, firstAlt alts rest = some alt →
      toksMatch alt rest = true := by
  intro alts
  induction alts with
  | nil => intro rest alt h; simp [firstAlt] at h
  | cons a as ih =>
    intro rest alt h
    rw [firstAlt] at h
    by_cases ht : toksMatch a rest = true
    · rw [if_pos ht] at h
      injection h with h
      subst h
      exact ht
    · rw [if_neg ht] at h
      exact ih h

theorem splitBar_ne_nil : ∀ cs : List Char, splitBar cs ≠ [] := by
  intro cs
  cases cs with
  | nil => simp [splitBar]
  | cons c cs =>
    rw [splitBar]
    by_cases h : (c == '|') = true
    · rw [if_pos h]; simp
    · rw [if_neg h]
      cases hs : splitBar cs <;> simp

theorem splitBar_no_bar : ∀ {cs : List Char}, '|' ∉ cs → splitBar cs = [cs] := by
  intro cs
  induction cs with
  | nil => intro _; rfl
  | cons c cs ih =>
    intro h
    rw [splitBar]
    have h1 : ¬(c = '|') := fun hq => h (by rw [hq]; exact List.mem_cons_self _ _)
    rw [if_neg (by simp [h1])]
    rw [ih (fun hq => h (List.mem_cons_of_mem _ hq))]

theorem splitBar_mem : ∀ {cs part : List Char}, part ∈ splitBar cs →
    ∀ {c : Char}, c ∈ part → c ∈ cs := by
  intro cs
  induction cs with
  | nil =>
    intro part hp c hc
    simp [splitBar] at hp
    subst hp
    simp at hc
  | cons d ds ih =>
    intro part hp c hc
    rw [splitBar] at hp
    by_cases hd : (d == '|') = true
    · rw [if_pos hd] at hp
      rcases List.mem_cons.mp hp with rfl | hp'
      · simp at hc
      · exact List.mem_cons_of_mem _ (ih hp' hc)
    · rw [if_neg hd] at hp
      cases hs : splitBar ds with
      | nil => exact absurd hs (splitBar_ne_nil ds)
      | cons a as =>
        rw [hs] at hp
        rcases List.mem_cons.mp hp with rfl | hp'
        · rcases List.mem_cons.mp hc with rfl | hc'
          · exact List.mem_cons_self _ _
          · refine List.mem_cons_of_mem _ (ih ?_ hc')
            rw [hs]
            exact List.mem_cons_self _ _
        · refine List.mem_cons_of_mem _ (ih ?_ hc)
          rw [hs]
          exact List.mem_cons_of_mem _ hp'

theorem compileAlts_isSome : ∀ {ps : List (List Char)},
    (∀ p ∈ ps, (compileToks p).isSome = true) →
    (compileAlts ps).isSome = true := by
  intro ps
  induction ps with
  | nil => intro _; rfl
  | cons p ps ih =>
    intro h
    have hp := h p (List.mem_cons_self _ _)
    have hps := ih (fun x hx => h x (List.mem_cons_of_mem _ hx))
    simp only [compileAlts]
    cases hcp : compileToks p with
    | none => rw [hcp] at hp; cases hp
    | some t =>
      cases hcps : compileAlts ps with
      | none => rw [hcps] at hps; cases hps
      | some ts => simp

theorem compilePam_isSome {pam : List Char}
    (h : ∀ c ∈ pam, regexMeta.contains c = false) :
    (compilePam pam).isSome = true := by
  rw [compilePam]
  apply compileAlts_isSome
  intro part hp
  exact compileToks_isSome
    (fun c hc => compileTok_pamReplaceN_isSome h c (splitBar_mem hp hc))

theorem bar_not_mem_pamReplaceN {pam : List Char} (h : '|' ∉ pam) :
    '|' ∉ pamReplaceN pam := by
  intro hmem
  rcases List.mem_map.mp hmem with ⟨c0, hc0, heq⟩
  by_cases hN : (c0 == 'N') = true
  · rw [if_pos hN] at heq
    exact absurd heq (by decide)
  · rw [if_neg hN] at heq
    subst heq
    exact h hc0

theorem compilePam_single {pam : List Char} {toks : List PamTok}
    (hbar : '|' ∉ pam) (hct : compileToks (pamReplaceN pam) = some toks) :
    compilePam pam = some [toks] := by
  rw [compilePam, splitBar_no_bar (bar_not_mem_pamReplaceN hbar)]
  simp only [compileAlts, hct]

theorem scanFromFuel_mem (S : List Char) (alts : List (List PamTok)) :
    ∀ (f i : Nat) (a : Candidate), a ∈ scanFromFuel S alts f i →
      i ≤ a.start ∧ matchesAt S alts a.start = true ∧
        a.gRNA = (S.drop a.start).take 20 := by
  intro f
  induction f with
  | zero => intro i a ha; simp [scanFromFuel] at ha
  | succ f ih =>
    intro i a ha
    rw [scanFromFuel] at ha
    by_cases h : i + 20 ≤ S.length
    · rw [if_pos h] at ha
      by_cases hn : ((S.drop i).take 20).all isNuc = true
      · rw [if_pos hn] at ha
        cases hfa : firstAlt alts (S.drop (i + 20)) with
        | none =>
          rw [hfa] at ha
          obtain ⟨h1, h2, h3⟩ := ih _ _ ha
          exact ⟨by omega, h2, h3⟩
        | some alt =>
          rw [hfa] at ha
          rcases List.mem_cons.mp ha with rfl | ha'
          · refine ⟨Nat.le_refl _, ?_, rfl⟩
            simp [matchesAt, h, hn, hfa]
          · obtain ⟨h1, h2, h3⟩ := ih _ _ ha'
            exact ⟨by omega, h2, h3⟩
      · rw [if_neg hn] at ha
        obtain ⟨h1, h2, h3⟩ := ih _ _ ha
        exact ⟨by omega, h2, h3⟩
    · rw [if_neg h] at ha
      exact absurd ha (List.not_mem_nil a)

theorem scanFrom_mem {S : List Char} {alts : List (List PamTok)} {i : Nat}
    {a : Candidate} (ha : a ∈ scanFrom S alts i) :
    i ≤ a.start ∧ matchesAt S alts a.start = true ∧
      a.gRNA = (S.drop a.start).take 20 :=
  scanFromFuel_mem S alts _ _ a ha

theorem scanFromFuel_chain_ge (S : List Char) (alts : List (List PamTok))
    (L : Nat) (hL : ∀ alt ∈ alts, L ≤ alt.length) :
    ∀ (f i : Nat),
      List.Chain' (fun a b : Candidate => a.start + 20 + L ≤ b.start)
        (scanFromFuel S alts f i) := by
  intro f
  induction f with
  | zero => intro i; simp [scanFromFuel]
  | succ f ih =>
    intro i
    rw [scanFromFuel]
    by_cases h : i + 20 ≤ S.length
    · rw [if_pos h]
      by_cases hn : ((S.drop i).take 20).all isNuc = true
      · rw [if_pos hn]
        cases hfa : firstAlt alts (S.drop (i + 20)) with
        | none => exact ih _
        | some alt =>
          refine List.chain'_cons'.mpr ⟨?_, ih _⟩
          intro y hy
          have hmem := (scanFromFuel_mem S alts f _ y (List.mem_of_mem_head? hy)).1
          have halt := hL alt (firstAlt_mem hfa)
          show i + 20 + L ≤ y.start
          omega
      · rw [if_neg hn]
        exact ih _
    · rw [if_neg h]
      exact List.chain'_nil

theorem scanFrom_chain_ge (S : List Char) (alts : List (List PamTok))
    (L : Nat) (hL : ∀ alt ∈ alts, L ≤ alt.length) (i : Nat) :
    List.Chain' (fun a b : Candidate => a.start + 20 + L ≤ b.start)
      (scanFrom S alts i) :=
  scanFromFuel_chain_ge S alts L hL _ _

theorem scanFromFuel_nil (S : List Char) (alts : List (List PamTok))
    (h : ∀ j, j + 20 ≤ S.length → firstAlt alts (S.drop (j + 20)) = none) :
    ∀ f i, scanFromFuel S alts f i = [] := by
  intro f
  induction f with
  | zero => intro i; rfl
  | succ f ih =>
    intro i
    rw [scanFromFuel]
    by_cases hc : i + 20 ≤ S.length
    · rw [if_pos hc]
      by_cases hn : ((S.drop i).take 20).all isNuc = true
      · rw [if_pos hn, h i hc]
        exact ih _
      · rw [if_neg hn]
        exact ih _
    · rw [if_neg hc]

theorem matchesAt_elim {S : List Char} {alts : List (List PamTok)} {i : Nat}
    (h : matchesAt S alts i = true) :
    i + 20 ≤ S.length ∧ ((S.drop i).take 20).all isNuc = true ∧
      (firstAlt alts (S.drop (i + 20))).isSome = true := by
  simp only [matchesAt, Bool.and_eq_true, decide_eq_true_eq] at h
  exact ⟨h.1.1, h.1.2, h.2⟩

theorem gRNA_length {S : List Char} {i : Nat} (h : i + 20 ≤ S.length) :
    ((S.drop i).take 20).length = 20 := by
  simp [List.length_take, List.length_drop]
  omega

theorem extract_gRNAs_eq {S pam : List Char} {alts : List (List PamTok)}
    (hc : compilePam pam = some alts) :
    extract_gRNAs S pam = some (((scanFrom S alts 0).map (annotate S)).take 50) := by
  unfold extract_gRNAs
  rw [hc]

theorem extract_gRNAs_some {S pam : List Char} {l : List Annotated}
    (h : extract_gRNAs S pam = some l) :
    ∃ alts, compilePam pam = some alts ∧
      l = ((scanFrom S alts 0).map (annotate S)).take 50 := by
  unfold extract_gRNAs at h
  cases hc : compilePam pam with
  | none => rw [hc] at h; cases h
  | some alts =>
    rw [hc] at h
    injection h with h
    exact ⟨alts, rfl, h.symm⟩

theorem mem_extract {S pam : List Char} {alts : List (List PamTok)}
    {l : List Annotated}
    (hc : compilePam pam = some alts)
    (he : extract_gRNAs S pam = some l) {a : Annotated} (ha : a ∈ l) :
    ∃ c : Candidate, c ∈ scanFrom S alts 0 ∧ a = annotate S c := by
  obtain ⟨alts', hc', hl⟩ := extract_gRNAs_some he
  rw [hc] at hc'
  injection hc' with hc'
  subst hc'
  subst hl
  rcases List.mem_map.mp (List.mem_of_mem_take ha) with ⟨c, hcmem, rfl⟩
  exact ⟨c, hcmem, rfl⟩

/-! ### Rounding lemmas -/

theorem roundCenti_eq_round (num den : Nat) (h : 0 < den) :
    (roundCenti num den : ℤ) = round ((num : ℚ) / (den : ℚ) * 100) := by
  have hden : ((den : ℚ)) ≠ 0 := Nat.cast_ne_zero.mpr (by omega)
  rw [round_eq]
  have hx : (num : ℚ) / (den : ℚ) * 100 + 1 / 2
      = (((num * 200 + den : ℕ) : ℤ) : ℚ) / (((2 * den : ℕ) : ℕ) : ℚ) := by
    push_cast
    field_simp
    ring
  rw [hx, Rat.floor_intCast_div_natCast, roundCenti, Int.natCast_div]

theorem roundCenti_div100 (num den : Nat) (h : 0 < den) :
    ((roundCenti num den : ℚ)) / 100 = round2 ((num : ℚ) / (den : ℚ)) := by
  rw [round2, ← roundCenti_eq_round num den h, Int.cast_natCast]

theorem roundCenti_mul100 (k : Nat) {den : Nat} (h : 0 < den) :
    roundCenti (k * den) den = k * 100 := by
  unfold roundCenti
  rw [show k * den * 200 + den = den + 2 * den * (k * 100) by ring]
  rw [Nat.add_mul_div_left _ _ (by omega : 0 < 2 * den)]
  rw [Nat.div_eq_of_lt (by omega)]
  omega

theorem countP_GC (g : List Char) :
    g.countP (fun c => c == 'G' || c == 'C')
      = g.countP (fun c => c == 'G') + g.countP (fun c => c == 'C') := by
  induction g with
  | nil => rfl
  | cons c cs ih =>
    by_cases hG : c = 'G'
    · subst hG
      simp only [List.countP_cons, ih]
      norm_num
      rw [if_neg (by decide : ¬('G' = 'C'))]
      omega
    · by_cases hC : c = 'C'
      · subst hC
        simp only [List.countP_cons, ih]
        norm_num
        rw [if_neg (by decide : ¬('C' = 'G'))]
        omega
      · simp only [List.countP_cons, ih]
        have h1 : (c == 'G') = false := by simp [hG]
        have h2 : (c == 'C') = false := by simp [hC]
        simp [h1, h2]

/-! ### Claims -/

/-- C2, counterexample: in `seqA21GGG` the pattern also matches at offset 1
(`matchesAt … 1 = true`), but the scan — which resumes after the end of each
match instead of performing a non-consuming lookahead scan — reports only the
candidate at offset 0, so not every matching start offset yields a candidate. -/
theorem scan_skips_overlap_cex :
    compilePam pamNGG = some altsNGG
    ∧ matchesAt seqA21GGG altsNGG 1 = true
    ∧ (extract_gRNAs seqA21GGG pamNGG).map (fun l => l.map Annotated.start)
        = some [0] := by decide

/-- C2, amended: every candidate returned by `extract_gRNAs` does come from a
start offset at which the pattern matches — its protospacer is the 20
characters of `S` at its offset, has length exactly 20, consists only of
A/T/C/G, and is immediately followed in `S` by a substring matching the
compiled PAM (the alternative the alternation selects there matches and fits
within `S`) — but the scan is non-overlapping, not exhaustive over offsets. -/
theorem extract_gRNAs_sound (S pam : List Char) (alts : List (List PamTok))
    (l : List Annotated)
    (hc : compilePam pam = some alts)
    (he : extract_gRNAs S pam = some l) (a : Annotated) (ha : a ∈ l) :
    a.gRNA = (S.drop a.start).take 20
    ∧ a.gRNA.length = 20
    ∧ a.gRNA.all isNuc = true
    ∧ matchesAt S alts a.start = true
    ∧ ∀ alt, firstAlt alts (S.drop (a.start + 20)) = some alt →
        toksMatch alt (S.drop (a.start + 20)) = true
        ∧ a.start + 20 + alt.length ≤ S.length := by
  obtain ⟨c, hcmem, rfl⟩ := mem_extract hc he ha
  obtain ⟨-, hm, hg⟩ := scanFrom_mem hcmem
  obtain ⟨hlen, hall, -⟩ := matchesAt_elim hm
  simp only [annotate]
  refine ⟨hg, ?_, ?_, hm, ?_⟩
  · rw [hg]
    exact gRNA_length (by omega)
  · rw [hg]
    exact hall
  · intro alt halt
    have htm := firstAlt_match halt
    have hfit := toksMatch_length htm
    rw [List.length_drop] at hfit
    exact ⟨htm, by omega⟩

/-- C2, witness: the soundness theorem applied to the single candidate of
`extract_gRNAs seqA20AGG "NGG"`, instantiating the alternation at its only
alternative. -/
theorem extract_gRNAs_sound_witness :
    (List.replicate 20 'A' : List Char) = (seqA20AGG.drop 0).take 20
    ∧ (List.replicate 20 'A' : List Char).length = 20
    ∧ (List.replicate 20 'A' : List Char).all isNuc = true
    ∧ matchesAt seqA20AGG altsNGG 0 = true
    ∧ (toksMatch toksNGG (seqA20AGG.drop (0 + 20)) = true
        ∧ 0 + 20 + toksNGG.length ≤ seqA20AGG.length) := by
  have h := extract_gRNAs_sound seqA20AGG pamNGG altsNGG [rowA20AGG]
    (by decide) (by decide) rowA20AGG (by decide)
  exact ⟨h.1, h.2.1, h.2.2.1, h.2.2.2.1, h.2.2.2.2 toksNGG (by decide)⟩

/-- C1, counterexample: in `seqC1` the unique protospacer `A^18 CC` occurs
exactly once in the sequence as a full 20-mer, yet the reported off-target
risk is the count `1`, not `"Low"`: the code counts occurrences of
`gRNA[:-2]` (the first 18 bases), which occurs twice. -/
theorem off_target_full20_cex :
    countOccurrences seqC1 (List.replicate 18 'A' ++ ['C', 'C']) = 1
    ∧ (extract_gRNAs seqC1 pamNGG).map (fun l => l.map Annotated.gRNA)
        = some [List.replicate 18 'A' ++ ['C', 'C']]
    ∧ (extract_gRNAs seqC1 pamNGG).map (fun l => l.map Annotated.offTarget)
        = some [OffTarget.count 1] := by decide

/-- C1, amended: for every candidate returned by `extract_gRNAs`, the
off-target field is computed from the overlapping occurrence count of the
first 18 symbols (`gRNA[:-2]`, not the first 20) of the protospacer within
`S`, minus 1: it is `"Low"` exactly when that prefix occurs exactly once,
and otherwise it is the integer `occurrences - 1`. -/
theorem off_target_first18 (S pam : List Char) (alts : List (List PamTok))
    (l : List Annotated)
    (hc : compilePam pam = some alts)
    (he : extract_gRNAs S pam = some l) (a : Annotated) (ha : a ∈ l) :
    (a.offTarget = OffTarget.low ↔ countOccurrences S (a.gRNA.take 18) = 1)
    ∧ (1 < countOccurrences S (a.gRNA.take 18) →
        a.offTarget
          = OffTarget.count ((countOccurrences S (a.gRNA.take 18) : Int) - 1)) := by
  obtain ⟨c, hcmem, rfl⟩ := mem_extract hc he ha
  obtain ⟨-, hm, hg⟩ := scanFrom_mem hcmem
  obtain ⟨hlen, -, -⟩ := matchesAt_elim hm
  have hglen : c.gRNA.length = 20 := by
    rw [hg]
    exact gRNA_length (by omega)
  have hpre : (S.drop c.start).take 18 = c.gRNA.take 18 := by
    rw [hg, List.take_take]
    norm_num
  have hpre_len : (c.gRNA.take 18).length = 18 := by
    rw [List.length_take, hglen]
    omega
  have hocc : 0 < countOccurrences S (c.gRNA.take 18) := by
    rw [countOccurrences, List.countP_pos_iff]
    refine ⟨c.start, List.mem_range.mpr (by omega), ?_⟩
    rw [hpre_len, hpre]
    exact beq_self_eq_true _
  have hct : count_off_targets S c.gRNA
      = if ((countOccurrences S (c.gRNA.take 18) : Int) - 1) > 0
        then OffTarget.count ((countOccurrences S (c.gRNA.take 18) : Int) - 1)
        else OffTarget.low := by
    simp only [count_off_targets, hglen]
  simp only [annotate]
  rcases Nat.lt_or_ge (countOccurrences S (c.gRNA.take 18)) 2 with hlt | hge
  · have h1 : countOccurrences S (c.gRNA.take 18) = 1 := by omega
    constructor
    · rw [hct, h1]
      norm_num
    · intro hgt
      rw [h1] at hgt
      omega
  · have hpos : ((countOccurrences S (c.gRNA.take 18) : Int) - 1) > 0 := by
      omega
    constructor
    · rw [hct, if_pos hpos]
      constructor
      · intro hcount
        cases hcount
      · intro h1
        omega
    · intro _
      rw [hct, if_pos hpos]

/-- C1, witness: the amended theorem applied to the single candidate of
`extract_gRNAs seqA20AGG "NGG"`, whose 18-base prefix occurs 4 times. -/
theorem off_target_first18_witness :
    (OffTarget.count 3 = OffTarget.low ↔
      countOccurrences seqA20AGG ((List.replicate 20 'A').take 18) = 1)
    ∧ (1 < countOccurrences seqA20AGG ((List.replicate 20 'A').take 18) →
        OffTarget.count 3
          = OffTarget.count
              ((countOccurrences seqA20AGG ((List.replicate 20 'A').take 18) : Int)
                - 1)) :=
  off_target_first18 seqA20AGG pamNGG altsNGG [rowA20AGG]
    (by decide) (by decide) rowA20AGG (by decide)

/-- C3: every melting temperature reported by the (spec-modelled) Wallace
annotator equals `2*(#A+#T) + 4*(#G+#C)` over the protospacer exactly — in
hundredths, `100` times that integer — which equals the spec's
`round(2*(A+T) + 4*(G+C), 2)`; the all-G protospacer yields `80.00`. -/
theorem melting_temp_wallace :
    (∀ g : List Char,
      melting_temp g
        = 100 * (2 * (g.countP (fun c => c == 'A') + g.countP (fun c => c == 'T'))
            + 4 * (g.countP (fun c => c == 'G') + g.countP (fun c => c == 'C'))))
    ∧ (∀ g : List Char,
      (melting_temp g : ℚ) / 100
        = round2 (2 * ((g.countP (fun c => c == 'A') : ℚ)
              + (g.countP (fun c => c == 'T') : ℚ))
            + 4 * ((g.countP (fun c => c == 'G') : ℚ)
              + (g.countP (fun c => c == 'C') : ℚ))))
    ∧ melting_temp (List.replicate 20 'G') = 8000 := by
  have hval : ∀ v : Nat, roundCenti v 1 = v * 100 := by
    intro v
    have h := roundCenti_mul100 v (show (0:ℕ) < 1 by omega)
    simpa using h
  refine ⟨?_, ?_, by decide⟩
  · intro g
    rw [melting_temp, hval]
    ring
  · intro g
    rw [melting_temp]
    have hd := roundCenti_div100
      (2 * (g.countP (fun c => c == 'A') + g.countP (fun c => c == 'T'))
        + 4 * (g.countP (fun c => c == 'G') + g.countP (fun c => c == 'C')))
      1 (by omega)
    rw [hd]
    congr 1
    push_cast
    ring

/-- C4, counterexample: the PAM `"XYZ"` is nonempty but contains symbols
outside {A,T,C,G,N}; `extract_gRNAs` does not fail with an `InvalidPAM`
error — it substitutes the PAM literally, scans, and returns a result set
(here even a matched candidate followed by the literal text `XYZ`). -/
theorem invalid_pam_no_error_cex :
    (pamXYZ ≠ []
      ∧ 'X' ∈ pamXYZ
      ∧ ('X' == 'A' || 'X' == 'T' || 'X' == 'C' || 'X' == 'G' || 'X' == 'N')
          = false)
    ∧ extract_gRNAs seqXYZ pamXYZ = some [rowXYZ] := by decide

/-- C4, amended: no PAM validation is performed.  For every PAM string —
empty or containing symbols outside {A,T,C,G,N} — whose characters are not
regex metacharacters, the PAM is substituted literally (`N` still becoming
the wildcard) and the scan proceeds, returning a result set instead of an
`InvalidPAM` error. -/
theorem extract_gRNAs_total_nonmeta (S pam : List Char)
    (h : ∀ c ∈ pam, regexMeta.contains c = false) :
    (extract_gRNAs S pam).isSome = true := by
  have hsome := compilePam_isSome h
  unfold extract_gRNAs
  cases hc : compilePam pam with
  | none => rw [hc] at hsome; cases hsome
  | some alts => simp

/-- C4, witness: the amended theorem applied to the PAM `"XYZ"`. -/
theorem extract_gRNAs_total_nonmeta_witness :
    (extract_gRNAs seqXYZ pamXYZ).isSome = true :=
  extract_gRNAs_total_nonmeta seqXYZ pamXYZ (by decide)

/-- C5: the returned result set holds at most 50 rows, is exactly the prefix
of the first 50 annotated scanner matches, and is in strictly ascending
start-offset order (scan order, no resorting). -/
theorem extract_gRNAs_take50 (S pam : List Char) (alts : List (List PamTok))
    (l : List Annotated)
    (hc : compilePam pam = some alts)
    (he : extract_gRNAs S pam = some l) :
    l.length ≤ 50
    ∧ List.Chain' (fun a b : Annotated => a.start < b.start) l
    ∧ l = ((scanFrom S alts 0).map (annotate S)).take 50 := by
  obtain ⟨alts', hc', hl⟩ := extract_gRNAs_some he
  rw [hc] at hc'
  injection hc' with hc'
  subst hc'
  subst hl
  refine ⟨List.length_take_le _ _, ?_, rfl⟩
  apply List.Chain'.take
  rw [List.chain'_map]
  apply List.Chain'.imp ?_ (scanFrom_chain_ge S alts 0 (fun _ _ => Nat.zero_le _) 0)
  intro a b hab
  simp only [annotate]
  omega

/-- C5, witness: the theorem applied to `extract_gRNAs seqTwo "NGG"`, whose
two rows appear in ascending offset order. -/
theorem extract_gRNAs_take50_witness :
    rowsTwo.length ≤ 50
    ∧ List.Chain' (fun a b : Annotated => a.start < b.start) rowsTwo
    ∧ rowsTwo = ((scanFrom seqTwo altsNGG 0).map (annotate seqTwo)).take 50 :=
  extract_gRNAs_take50 seqTwo pamNGG altsNGG rowsTwo (by decide) (by decide)

/-- C6: for every 20-symbol A/T/C/G protospacer, the reported GC content is
the pure value `round(100 * (#G + #C) / 20, 2)` — in hundredths, exactly
`500 * (#G + #C)` — and lies in `[0, 100]` percent (`≤ 10000` hundredths). -/
theorem gc_content_spec (g : List Char) (hlen : g.length = 20)
    (_hg : g.all isNuc = true) :
    calculate_gc_content g
        = 500 * (g.countP (fun c => c == 'G') + g.countP (fun c => c == 'C'))
    ∧ (calculate_gc_content g : ℚ) / 100
        = round2 (100 * (((g.countP (fun c => c == 'G') : ℚ)
            + (g.countP (fun c => c == 'C') : ℚ)) / 20))
    ∧ calculate_gc_content g ≤ 10000 := by
  have hcle : g.countP (fun c => c == 'G' || c == 'C') ≤ 20 := by
    have h := List.countP_le_length (l := g) (fun c => c == 'G' || c == 'C')
    omega
  have h1 : calculate_gc_content g
      = 500 * g.countP (fun c => c == 'G' || c == 'C') := by
    rw [calculate_gc_content, hlen]
    rw [show g.countP (fun c => c == 'G' || c == 'C') * 100
        = (g.countP (fun c => c == 'G' || c == 'C') * 5) * 20 by ring]
    rw [roundCenti_mul100 _ (by omega : (0:ℕ) < 20)]
    ring
  refine ⟨by rw [h1, countP_GC], ?_, by omega⟩
  have h2 : (calculate_gc_content g : ℚ) / 100
      = round2 (((g.countP (fun c => c == 'G' || c == 'C') * 100 : ℕ) : ℚ)
          / ((20 : ℕ) : ℚ)) := by
    rw [calculate_gc_content, hlen]
    exact roundCenti_div100 _ 20 (by omega)
  rw [h2]
  congr 1
  rw [countP_GC]
  push_cast
  ring

/-- C6, witness: the theorem applied to a half-G protospacer. -/
theorem gc_content_spec_witness :
    calculate_gc_content gHalf
        = 500 * (gHalf.countP (fun c => c == 'G') + gHalf.countP (fun c => c == 'C'))
    ∧ (calculate_gc_content gHalf : ℚ) / 100
        = round2 (100 * (((gHalf.countP (fun c => c == 'G') : ℚ)
            + (gHalf.countP (fun c => c == 'C') : ℚ)) / 20))
    ∧ calculate_gc_content gHalf ≤ 10000 :=
  gc_content_spec gHalf (by decide) (by decide)

/-- C7, counterexample: `seqXhead` contains the non-nucleotide character `X`,
yet `extract_gRNAs` does not fail with an `InvalidAlphabet` error — it scans
the text and returns the candidate found after the invalid character. -/
theorem invalid_alphabet_no_error_cex :
    ('X' ∈ seqXhead ∧ isNuc 'X' = false)
    ∧ extract_gRNAs seqXhead pamNGG = some [rowXhead] := by decide

/-- C7, amended: no alphabet validation is performed.  For every input text
(with or without characters outside {A,T,C,G}) and every compilable PAM, the
scan proceeds and returns a result set; invalid characters merely never occur
inside a returned protospacer. -/
theorem extract_gRNAs_no_alphabet_check (S pam : List Char)
    (alts : List (List PamTok))
    (hc : compilePam pam = some alts) :
    (extract_gRNAs S pam).isSome = true
    ∧ ∀ a ∈ (extract_gRNAs S pam).getD [], a.gRNA.all isNuc = true := by
  have he := extract_gRNAs_eq (S := S) hc
  constructor
  · rw [he]
    rfl
  · intro a ha
    rw [he, Option.getD_some] at ha
    obtain ⟨c, hcmem, rfl⟩ := mem_extract hc he ha
    obtain ⟨-, hm, hg⟩ := scanFrom_mem hcmem
    obtain ⟨-, hall, -⟩ := matchesAt_elim hm
    simp only [annotate]
    rw [hg]
    exact hall

/-- C7, witness: the amended theorem applied to `seqXhead`, whose returned
protospacer is all-nucleotide although the input contains `X`. -/
theorem extract_gRNAs_no_alphabet_check_witness :
    (extract_gRNAs seqXhead pamNGG).isSome = true
    ∧ rowXhead.gRNA.all isNuc = true := by
  have h := extract_gRNAs_no_alphabet_check seqXhead pamNGG altsNGG (by decide)
  exact ⟨h.1, h.2 rowXhead (by decide)⟩

/-- C8: a valid sequence shorter than `20 + len(pam)` with a valid PAM yields
the empty result set, not an error. -/
theorem extract_gRNAs_short_empty (S pam : List Char)
    (_hS : S.all isNuc = true)
    (hpam : pam.all
      (fun c => c == 'A' || c == 'T' || c == 'C' || c == 'G' || c == 'N') = true)
    (hlen : S.length < 20 + pam.length) :
    extract_gRNAs S pam = some [] := by
  have hmeta : ∀ c ∈ pam, regexMeta.contains c = false := fun c hcmem =>
    noMeta_of_ATCGN (List.all_eq_true.mp hpam c hcmem)
  have hbar : '|' ∉ pam := fun hmem => by
    have h := List.all_eq_true.mp hpam '|' hmem
    exact absurd h (by decide)
  have hsome := compileToks_pamReplaceN_isSome hmeta
  cases hc : compileToks (pamReplaceN pam) with
  | none => rw [hc] at hsome; cases hsome
  | some toks =>
    have hcp : compilePam pam = some [toks] := compilePam_single hbar hc
    have htlen : toks.length = pam.length := by
      rw [compileToks_length hc]
      simp [pamReplaceN]
    have hempty : ∀ f i, scanFromFuel S [toks] f i = [] := by
      apply scanFromFuel_nil
      intro j hj
      by_cases htm : toksMatch toks (S.drop (j + 20)) = true
      · have hfit := toksMatch_length htm
        rw [List.length_drop] at hfit
        omega
      · rw [firstAlt, if_neg htm]
        rfl
    rw [extract_gRNAs_eq hcp, scanFrom, hempty]
    rfl

/-- C8, witness: the theorem applied to a 2-base sequence and the `"NGG"`
PAM. -/
theorem extract_gRNAs_short_empty_witness :
    extract_gRNAs ['A', 'T'] pamNGG = some [] :=
  extract_gRNAs_short_empty ['A', 'T'] pamNGG (by decide) (by decide) (by decide)

/-- C10: `extract_gRNAs` is not total over arbitrary PAM strings: the PAM
`"("` is substituted unescaped into the pattern, making it malformed, and
the call raises `re.error` (modelled by `none`) instead of returning a
result set or a reported error value. -/
theorem extract_gRNAs_regex_error : ∀ S : List Char,
    extract_gRNAs S pamParen = none := by
  intro S
  rfl

end CRISPRCraft
